import Mathlib

/-!
Verification of the AI-CTI dashboard core: the AggregationEngine functions
(groupBySource, groupByDate, calcIocHeatmap, buildTopicList,
extractHighRiskHeadlines, summariseIocs) and the SavedBriefingsStore
(loadSavedCache, isSaved, toggleSaved).

The JavaScript source is embedded shallowly:
- JS strings are Lean `String`; case folding and lexicographic comparison are
  carried out on the underlying character list (`String.data`) so that all
  definitions evaluate inside the kernel;
- a JS `Map` (insertion-ordered, unique keys) is an association list
  `List (String × Nat)` updated by `bump`, which models
  `m.set(k, (m.get(k) || 0) + 1)`: an existing key is updated in place, a new
  key is appended at the end;
- `Array.prototype.sort` (stable since ES2019) with a key-based comparator is
  the stable insertion sort `sortJS`;
- platform Date parsing (`new Date(s)` / `Date.now()` / `toISOString`) is a
  parameter `JsDateEnv`; a string the platform cannot parse makes
  `toISOString()` throw a RangeError, modelled as `Except.error ()`;
- fields that may be absent on the duck-typed JS records are `Option`;
  JS truthiness of a string-or-missing value is `truthy` (both `undefined`
  and `""` are falsy);
- network calls are modelled by their observable outcome (`DeleteOutcome`,
  `InsertOutcome`), and `toggleSaved` becomes a state-transition function on
  the store state, split into the synchronous optimistic phase
  (`toggleOptimistic`, everything before the `await`) and the settlement
  phase (`toggleSettle`, the code after the `await` together with the
  `catch` handler).
-/

namespace AiCti

/-- JS truthiness of a possibly-missing string: `undefined`/`null` and the
empty string are falsy. -/
def truthy : Option String → Bool
  | none => false
  | some s => !(s == "")

/-- JS `a || d` where `a` is a possibly-missing string and `d` a default. -/
def jsOr (a : Option String) (d : String) : String :=
  match a with
  | some s => if s == "" then d else s
  | none => d

/-- JS `a || b` keeping the result optional (used for
`item?.published_at || item?.fetched_at`). -/
def jsOrOpt (a b : Option String) : Option String :=
  if truthy a then a else if truthy b then b else none

/-- JS `String.prototype.toLowerCase`, character by character. -/
def toLowerStr (s : String) : String :=
  ⟨s.data.map Char.toLower⟩

/-- JS string comparison `a < b`: lexicographic on code units. -/
def lexLt : List Char → List Char → Bool
  | [], [] => false
  | [], _ :: _ => true
  | _ :: _, [] => false
  | a :: as, b :: bs => if a < b then true else if b < a then false else lexLt as bs

/-- JS `a < b` on strings. -/
def strLtb (a b : String) : Bool :=
  lexLt a.data b.data

/-- Insertion-ordered count map, the shallow embedding of a JS `Map` whose
values are counters (and of a plain JS object used the same way). -/
abbrev CountMap := List (String × Nat)

/-- JS `m.set(k, (m.get(k) || 0) + 1)`: update the existing entry in place,
or append a fresh `(k, 1)` entry at the end (JS maps and objects preserve
insertion order of keys). -/
def bump (k : String) : CountMap → CountMap
  | [] => [(k, 1)]
  | (k', c) :: rest => if k' = k then (k', c + 1) :: rest else (k', c) :: bump k rest

/-- JS `m.get(k)`. -/
def lookupKV (k : String) : CountMap → Option Nat
  | [] => none
  | (k', c) :: rest => if k' = k then some c else lookupKV k rest

/-- JS `m.get(k) || 0`. -/
def lookupD (k : String) (m : CountMap) : Nat :=
  (lookupKV k m).getD 0

/-- Fold a collection into a count map keyed by `f`, the shape of every
`forEach`-plus-`Map` aggregation in the source. -/
def buildMap (f : α → String) (l : List α) : CountMap :=
  l.foldl (fun m i => bump (f i) m) []

/-- One step of the stable sort: insert `x` (a later array element) into the
already sorted prefix `acc`; `x` moves ahead of exactly those elements whose
key is strictly smaller, so equal-keyed elements keep encounter order. -/
def insSorted (k : α → β) (ltb : β → β → Bool) (x : α) : List α → List α
  | [] => [x]
  | y :: ys => if ltb (k y) (k x) then x :: y :: ys else y :: insSorted k ltb x ys

/-- JS `Array.prototype.sort` (stable) with comparator
`(a, b) => cmp(k b, k a)` — i.e. sort descending by the key `k`. -/
def sortJS (k : α → β) (ltb : β → β → Bool) (l : List α) : List α :=
  l.foldl (fun acc x => insSorted k ltb x acc) []

/-! ## Data model -/

/-- Optional risk annotation on a feed item. -/
structure Risk where
  level : Option String
  score : Option Int
  sentiment : Option String
deriving DecidableEq, Repr

/-- A feed item (also the argument of `toggleSaved`): every duck-typed field
is explicitly optional. -/
structure FeedItem where
  title : Option String := none
  description : Option String := none
  link : Option String := none
  source : Option String := none
  source_name : Option String := none
  image_url : Option String := none
  image : Option String := none
  published_at : Option String := none
  fetched_at : Option String := none
  risk : Option Risk := none
deriving DecidableEq, Repr

/-- An indicator of compromise. -/
structure Ioc where
  type : Option String := none
  value : Option String := none
deriving DecidableEq, Repr

/-- A `{name, count}` entry (`groupBySource` result rows and IOC heatmap
entries share this shape in the source). -/
structure NameCount where
  name : String
  count : Nat
deriving DecidableEq, Repr

/-- A `{date, count}` timeline bucket. -/
structure DateBucket where
  date : String
  count : Nat
deriving DecidableEq, Repr

/-- A saved briefing as built by `toggleSaved` and stored in `saved`. -/
structure SavedItem where
  client_id : Option String := none
  link : String := ""
  title : String := ""
  source : String := ""
  image_url : String := ""
  risk_level : Option String := none
  risk_score : Option Int := none
  saved_at : Option String := none
deriving DecidableEq, Repr

/-- The platform date primitives `groupByDate` relies on: `parse` is
`new Date(string)` returning an epoch timestamp when the string parses,
`fmtDay` is `toISOString().slice(0, 10)`, `now` is `Date.now()` at call
time (always a valid timestamp). -/
structure JsDateEnv where
  parse : String → Option Int
  fmtDay : Int → String
  now : Int

/-! ## AggregationEngine -/

/-- Key of `groupBySource`: `(item?.source || 'Unknown').toLowerCase()`. -/
def sourceKey (i : FeedItem) : String :=
  toLowerStr (jsOr i.source "Unknown")

/-- `groupBySource`: count feeds per lower-cased source, sort by count
descending (stable), truncate to 8. -/
def groupBySource (feeds : List FeedItem) : List NameCount :=
  (sortJS NameCount.count Nat.blt
    ((buildMap sourceKey feeds).map (fun p => NameCount.mk p.1 p.2))).take 8

/-- The date string actually fed to `new Date(...)` by `groupByDate`:
`item?.published_at || item?.fetched_at`, `none` when both are falsy (in
which case the code falls back to `Date.now()`). -/
def effectiveDate (i : FeedItem) : Option String :=
  jsOrOpt i.published_at i.fetched_at

/-- Bucket key of one item:
`new Date(item?.published_at || item?.fetched_at || Date.now()).toISOString().slice(0, 10)`.
A present date string that the platform cannot parse yields an Invalid Date,
whose `toISOString()` throws a RangeError — the `.error ()` case. -/
def dateKey (env : JsDateEnv) (i : FeedItem) : Except Unit String :=
  match effectiveDate i with
  | some s =>
    match env.parse s with
    | some t => .ok (env.fmtDay t)
    | none => .error ()
  | none => .ok (env.fmtDay env.now)

/-- The `forEach` loop of `groupByDate` building the bucket map; a thrown
RangeError aborts the whole call. -/
def groupByDateAux (env : JsDateEnv) (m : CountMap) : List FeedItem → Except Unit CountMap
  | [] => .ok m
  | i :: rest =>
    match dateKey env i with
    | .error e => .error e
    | .ok k => groupByDateAux env (bump k m) rest

/-- `groupByDate`: bucket feeds per UTC calendar day, sort buckets by date
string descending (comparator `(a, b) => a.date > b.date ? -1 : 1`),
truncate to 10. -/
def groupByDate (env : JsDateEnv) (feeds : List FeedItem) : Except Unit (List DateBucket) :=
  (groupByDateAux env [] feeds).map fun m =>
    (sortJS DateBucket.date strLtb (m.map (fun p => DateBucket.mk p.1 p.2))).take 10

/-- Key of `calcIocHeatmap`: `(ioc?.type || 'other').toLowerCase()`. -/
def iocKey (x : Ioc) : String :=
  toLowerStr (jsOr x.type "other")

/-- `calcIocHeatmap`: fixed entries for domain, ip, cve, hash in that order,
each holding `bucket.get(name) || 0`. -/
def calcIocHeatmap (iocs : List Ioc) : List NameCount :=
  ["domain", "ip", "cve", "hash"].map (fun n => NameCount.mk n (lookupD n (buildMap iocKey iocs)))

/-- The stop-word set of `buildTopicList` (an implementation constant). -/
def stopWords : List String :=
  ["the", "with", "from", "about", "alert", "report", "attack", "after", "over",
   "under", "their", "will", "could", "into", "users", "cyber", "security",
   "threat", "news"]

/-- Tokens of one item for `buildTopicList`:
`[item?.title, item?.description].join(' ').toLowerCase()`, every character
outside `[a-z0-9\s]` replaced by a space, split on whitespace. Splitting on
each whitespace character rather than on runs only introduces extra empty
tokens, all of which the length filter discards. -/
def tokensOf (i : FeedItem) : List String :=
  let text := (i.title.getD "").data ++ ' ' :: (i.description.getD "").data
  let cleaned := (text.map Char.toLower).map
    (fun c => if c.isAlphanum || c.isWhitespace then c else ' ')
  (cleaned.splitOnP (fun c => c.isWhitespace)).map (fun cs => (⟨cs⟩ : String))

/-- Token filter: `token.length > 5 && !STOP_WORDS.has(token)`. -/
def topicWord (t : String) : Bool :=
  decide (5 < t.length) && !(stopWords.contains t)

/-- `buildTopicList`: count the filtered tokens of all items, sort by count
descending (stable), truncate to 6; entries are `[topic, count]` pairs. -/
def buildTopicList (feeds : List FeedItem) : List (String × Nat) :=
  (sortJS Prod.snd Nat.blt
    (buildMap id (feeds.flatMap (fun i => (tokensOf i).filter topicWord)))).take 6

/-- Predicate of `extractHighRiskHeadlines`:
`item?.risk?.level === 'Critical' || item?.risk?.level === 'High'`. -/
def highRiskLevel (i : FeedItem) : Bool :=
  (i.risk.bind Risk.level) == some "Critical" || (i.risk.bind Risk.level) == some "High"

/-- `extractHighRiskHeadlines`: filter by risk level, keep input order,
truncate to 4. -/
def extractHighRiskHeadlines (feeds : List FeedItem) : List FeedItem :=
  (feeds.filter highRiskLevel).take 4

/-- Key of `summariseIocs`: `item?.type?.toLowerCase()`, with falsy keys
(`undefined` or the empty string) rejected by `if (!key) return acc`. -/
def summKey (x : Ioc) : Option String :=
  match x.type with
  | none => none
  | some t => if toLowerStr t == "" then none else some (toLowerStr t)

/-- `summariseIocs`: reduce over the IOCs starting from
`{ ip: 0, domain: 0, cve: 0 }`; `acc[key] = (acc[key] || 0) + 1` is exactly
`bump` on the insertion-ordered object. -/
def summariseIocs (iocs : List Ioc) : CountMap :=
  iocs.foldl
    (fun acc i =>
      match summKey i with
      | none => acc
      | some k => bump k acc)
    [("ip", 0), ("domain", 0), ("cve", 0)]

/-! ## SavedBriefingsStore -/

/-- Result of `JSON.parse` on the cache slot, as far as `loadSavedCache`
inspects it: an array of saved items, or any non-array JSON value. -/
inductive CacheJson where
  | arr (items : List SavedItem)
  | nonArray

/-- `loadSavedCache`: read the durable slot; a missing or empty slot, a
parse failure (`JSON.parse` threw, caught by the surrounding `try`), or a
non-array value all yield `[]`; only an array is returned as is. -/
def loadSavedCache (slot : Option String) (parseJson : String → Option CacheJson) : List SavedItem :=
  match slot with
  | none => []
  | some raw =>
    if raw = "" then []
    else
      match parseJson raw with
      | none => []
      | some .nonArray => []
      | some (.arr items) => items

/-- `isSaved`: membership by `link` in the in-memory saved list. -/
def isSaved (link : String) (saved : List SavedItem) : Bool :=
  saved.any (fun e => e.link == link)

/-- `prev.filter((entry) => entry.link !== link)`. -/
def removeLink (link : String) (l : List SavedItem) : List SavedItem :=
  l.filter (fun e => !(e.link == link))

/-- The provider state owned by `SavedBriefingsProvider`: the in-memory
`saved` list, the durable cache mirror, and the `error` message. -/
structure StoreState where
  saved : List SavedItem
  cache : List SavedItem
  error : Option String
deriving DecidableEq, Repr

/-- Observable outcome of the remote DELETE: the code issues the fetch
without checking `res.ok`, so a resolved response — 2xx or not — is not
distinguished; only a rejected fetch throws into the `catch`. -/
inductive DeleteOutcome where
  | resolvedOk
  | resolvedErr
  | reject
deriving DecidableEq, Repr

/-- Observable outcome of the remote POST: `ok item` is a 2xx response whose
body held `json.item`; `okNoItem` a 2xx response without one; `httpErr` a
resolved non-2xx response (the code then throws `'Failed to save briefing'`);
`reject` a rejected fetch. -/
inductive InsertOutcome where
  | ok (item : SavedItem)
  | okNoItem
  | httpErr
  | reject
deriving DecidableEq, Repr

/-- The message stored by the `catch` handler
(`err.message || 'Failed to update saved briefing.'`). -/
def errMsg : String :=
  "Failed to update saved briefing."

/-- The link the mutation is about; only used under the guard, where
`item.link` is truthy. -/
def itemLink (item : FeedItem) : String :=
  item.link.getD ""

/-- The optimistic `SavedBriefing` payload stamped with the current time. -/
def mkPayload (clientId : String) (item : FeedItem) (now : String) : SavedItem :=
  { client_id := some clientId
    link := itemLink item
    title := jsOr item.title ""
    source := jsOr item.source (jsOr item.source_name "Unknown")
    image_url := jsOr item.image_url (jsOr item.image "")
    risk_level := item.risk.bind Risk.level
    risk_score := item.risk.bind Risk.score
    saved_at := some now }

/-- The synchronous prefix of `toggleSaved` (after the guard, before the
network `await`): clear `error`, then either optimistically remove the entry
or optimistically prepend the deduplicated, capped payload; each `setSaved`
callback also persists the new list (`persistSavedCache` writes
`items.slice(0, 50)`). -/
def toggleOptimistic (clientId : String) (item : FeedItem) (now : String)
    (st : StoreState) : StoreState :=
  let link := itemLink item
  if isSaved link st.saved then
    let next := removeLink link st.saved
    { st with saved := next, cache := next.take 50, error := none }
  else
    let optimistic := (mkPayload clientId item now :: removeLink link st.saved).take 50
    { st with saved := optimistic, cache := optimistic.take 50, error := none }

/-- The settlement of `toggleSaved` once the network call finishes, applied
to the optimistic state: a resolved DELETE (checked or not) keeps the
removal; a successful POST replaces the optimistic entry with the
server-returned item; a thrown error (rejected fetch, or non-2xx POST) runs
the `catch` handler, which surfaces the message and restores the
pre-mutation snapshot in memory and in the cache. -/
def toggleSettle (wasSaved : Bool) (del : DeleteOutcome) (ins : InsertOutcome)
    (previous : List SavedItem) (st : StoreState) : StoreState :=
  if wasSaved then
    match del with
    | .reject => { st with saved := previous, cache := previous.take 50, error := some errMsg }
    | _ => st
  else
    match ins with
    | .reject => { st with saved := previous, cache := previous.take 50, error := some errMsg }
    | .httpErr => { st with saved := previous, cache := previous.take 50, error := some errMsg }
    | .okNoItem => st
    | .ok srv =>
      let synced := (srv :: removeLink srv.link st.saved).take 50
      { st with saved := synced, cache := synced.take 50 }

/-- One settled `toggleSaved(item)` call: no-op unless `clientId` and
`item.link` are truthy; otherwise the optimistic phase followed by the
settlement of whichever network call the taken branch issued. -/
def toggleSaved (clientId : Option String) (item : FeedItem) (now : String)
    (del : DeleteOutcome) (ins : InsertOutcome) (st : StoreState) : StoreState :=
  if truthy clientId && truthy item.link then
    toggleSettle (isSaved (itemLink item) st.saved) del ins st.saved
      (toggleOptimistic (clientId.getD "") item now st)
  else st

/-! ## Association-list facts -/

theorem lookupKV_eq_none_iff (k : String) (m : CountMap) :
    lookupKV k m = none ↔ k ∉ m.map Prod.fst := by
  induction m with
  | nil => simp [lookupKV]
  | cons p rest ih =>
    obtain ⟨a, c⟩ := p
    by_cases h : a = k
    · simp [lookupKV, h, ih]
    · simp [lookupKV, h, ih, Ne.symm h]

theorem lookupKV_of_mem_nodup {m : CountMap} {k : String} {c : Nat}
    (hnd : (m.map Prod.fst).Nodup) (hm : (k, c) ∈ m) : lookupKV k m = some c := by
  induction m with
  | nil => simp at hm
  | cons p rest ih =>
    obtain ⟨a, v⟩ := p
    simp only [List.map_cons, List.nodup_cons] at hnd
    rcases List.mem_cons.mp hm with h | h
    · cases h
      simp [lookupKV]
    · have hka : a ≠ k := by
        rintro rfl
        exact hnd.1 (List.mem_map_of_mem Prod.fst h)
      simp [lookupKV, hka, ih hnd.2 h]

/-! ## Lemmas about `bump` and the counting folds -/

theorem bump_lookupKV (k k' : String) (m : CountMap) :
    lookupKV k (bump k' m) =
      if k = k' then some ((lookupKV k m).getD 0 + 1) else lookupKV k m := by
  induction m with
  | nil =>
    by_cases h : k = k'
    · subst h
      simp [bump, lookupKV]
    · have h' : ¬k' = k := fun hh => h hh.symm
      simp [bump, lookupKV, h, h']
  | cons p rest ih =>
    obtain ⟨a, c⟩ := p
    by_cases ha : a = k'
    · subst ha
      by_cases h : a = k
      · subst h
        simp [bump, lookupKV]
      · have h' : ¬k = a := fun hh => h hh.symm
        simp [bump, lookupKV, h, h']
    · by_cases h : a = k
      · subst h
        have h' : ¬a = k' := ha
        simp [bump, lookupKV, ha, h']
      · have h' : ¬k = a := fun hh => h hh.symm
        simp [bump, lookupKV, ha, h, h', ih]

theorem bump_lookupD (k k' : String) (m : CountMap) :
    lookupD k (bump k' m) = lookupD k m + if k = k' then 1 else 0 := by
  unfold lookupD
  rw [bump_lookupKV]
  by_cases h : k = k' <;> simp [h]

theorem bump_keys (k : String) (m : CountMap) :
    (bump k m).map Prod.fst =
      if k ∈ m.map Prod.fst then m.map Prod.fst else m.map Prod.fst ++ [k] := by
  induction m with
  | nil => simp [bump]
  | cons p rest ih =>
    obtain ⟨a, c⟩ := p
    by_cases h : a = k
    · simp [bump, h]
    · simp only [bump, h, if_false, List.map_cons, List.mem_cons, ih]
      by_cases hm : k ∈ rest.map Prod.fst
      · simp [hm]
      · simp [hm, Ne.symm h]

theorem bump_keys_nodup {m : CountMap} (k : String)
    (h : (m.map Prod.fst).Nodup) : ((bump k m).map Prod.fst).Nodup := by
  rw [bump_keys]
  by_cases hm : k ∈ m.map Prod.fst
  · simpa [hm] using h
  · rw [if_neg hm]
    refine List.Nodup.append h (List.nodup_singleton k) ?_
    intro a ha hb
    rw [List.mem_singleton] at hb
    exact hm (hb ▸ ha)

theorem bump_mem_keys (k k' : String) (m : CountMap) :
    k ∈ (bump k' m).map Prod.fst ↔ k ∈ m.map Prod.fst ∨ k = k' := by
  rw [bump_keys]
  by_cases hm : k' ∈ m.map Prod.fst
  · simp only [hm, if_true]
    constructor
    · exact Or.inl
    · rintro (h | rfl) <;> [exact h; exact hm]
  · simp [hm]

/-- The generic counting fold shared by every aggregation: a possibly-absent
key per item, `bump` on present keys. -/
def foldBump (g : α → Option String) (m0 : CountMap) (l : List α) : CountMap :=
  l.foldl (fun m i => match g i with | none => m | some k => bump k m) m0

theorem foldBump_lookupD (g : α → Option String) (k : String) (m0 : CountMap)
    (l : List α) :
    lookupD k (foldBump g m0 l) =
      lookupD k m0 + l.countP (fun i => decide (g i = some k)) := by
  induction l generalizing m0 with
  | nil => simp [foldBump]
  | cons i rest ih =>
    have hstep : foldBump g m0 (i :: rest) =
        foldBump g (match g i with | none => m0 | some k => bump k m0) rest := rfl
    rw [hstep, List.countP_cons]
    cases hg : g i with
    | none => simp [hg, ih]
    | some k' =>
      simp only [hg]
      rw [ih, bump_lookupD]
      by_cases h : k = k'
      · subst h
        simp only [decide_eq_true_eq, Option.some.injEq]
        simp
        omega
      · have h' : ¬k' = k := fun hh => h hh.symm
        simp [h, h']

theorem foldBump_keys_nodup (g : α → Option String) {m0 : CountMap} (l : List α)
    (h : (m0.map Prod.fst).Nodup) : ((foldBump g m0 l).map Prod.fst).Nodup := by
  induction l generalizing m0 with
  | nil => exact h
  | cons i rest ih =>
    have hstep : foldBump g m0 (i :: rest) =
        foldBump g (match g i with | none => m0 | some k => bump k m0) rest := rfl
    rw [hstep]
    cases hg : g i with
    | none => simpa [hg] using ih h
    | some k' => simpa [hg] using ih (bump_keys_nodup k' h)

theorem foldBump_mem_keys (g : α → Option String) (k : String) (m0 : CountMap)
    (l : List α) :
    k ∈ (foldBump g m0 l).map Prod.fst ↔
      k ∈ m0.map Prod.fst ∨ ∃ i ∈ l, g i = some k := by
  induction l generalizing m0 with
  | nil => simp [foldBump]
  | cons i rest ih =>
    have hstep : foldBump g m0 (i :: rest) =
        foldBump g (match g i with | none => m0 | some k => bump k m0) rest := rfl
    rw [hstep]
    cases hg : g i with
    | none =>
      simp only [hg, ih, List.mem_cons]
      constructor
      · rintro (h | ⟨j, hj, hgj⟩)
        · exact Or.inl h
        · exact Or.inr ⟨j, Or.inr hj, hgj⟩
      · rintro (h | ⟨j, hj, hgj⟩)
        · exact Or.inl h
        · rcases hj with rfl | hj
          · simp [hg] at hgj
          · exact Or.inr ⟨j, hj, hgj⟩
    | some k' =>
      simp only [hg, ih, bump_mem_keys, List.mem_cons]
      constructor
      · rintro ((h | rfl) | ⟨j, hj, hgj⟩)
        · exact Or.inl h
        · exact Or.inr ⟨i, Or.inl rfl, hg⟩
        · exact Or.inr ⟨j, Or.inr hj, hgj⟩
      · rintro (h | ⟨j, hj, hgj⟩)
        · exact Or.inl (Or.inl h)
        · rcases hj with rfl | hj
          · rw [hg] at hgj
            exact Or.inl (Or.inr (Option.some.inj hgj).symm)
          · exact Or.inr ⟨j, hj, hgj⟩

theorem buildMap_eq_foldBump (f : α → String) (l : List α) :
    buildMap f l = foldBump (fun i => some (f i)) [] l := rfl

theorem summariseIocs_eq_foldBump (iocs : List Ioc) :
    summariseIocs iocs = foldBump summKey [("ip", 0), ("domain", 0), ("cve", 0)] iocs := rfl

/-! ## Order facts for the two sort comparators -/

theorem natBlt_iff (a b : Nat) : Nat.blt a b = true ↔ a < b := Nat.blt_eq.to_iff

theorem natBlt_trans {a b c : Nat} (h1 : Nat.blt a b = true) (h2 : Nat.blt b c = true) :
    Nat.blt a c = true :=
  (natBlt_iff a c).mpr (lt_trans ((natBlt_iff a b).mp h1) ((natBlt_iff b c).mp h2))

theorem natBlt_irrefl (a : Nat) : Nat.blt a a = false := by
  cases h : Nat.blt a a
  · rfl
  · exact absurd ((natBlt_iff a a).mp h) (lt_irrefl a)

theorem natBlt_asymm {a b : Nat} (h : Nat.blt a b = true) : Nat.blt b a = false := by
  cases hc : Nat.blt b a
  · rfl
  · exact absurd (lt_trans ((natBlt_iff a b).mp h) ((natBlt_iff b a).mp hc)) (lt_irrefl a)

theorem lexLt_irrefl : ∀ a : List Char, lexLt a a = false
  | [] => rfl
  | c :: cs => by
    unfold lexLt
    rw [if_neg (lt_irrefl c), if_neg (lt_irrefl c)]
    exact lexLt_irrefl cs

theorem lexLt_trans : ∀ a b c : List Char,
    lexLt a b = true → lexLt b c = true → lexLt a c = true := by
  intro a
  induction a with
  | nil =>
    intro b c hab hbc
    cases b with
    | nil => simp [lexLt] at hab
    | cons y ys =>
      cases c with
      | nil => simp [lexLt] at hbc
      | cons z zs => simp [lexLt]
  | cons x xs ih =>
    intro b c hab hbc
    cases b with
    | nil => simp [lexLt] at hab
    | cons y ys =>
      cases c with
      | nil => simp [lexLt] at hbc
      | cons z zs =>
        by_cases hxy : x < y
        · by_cases hyz : y < z
          · simp [lexLt, lt_trans hxy hyz]
          · by_cases hzy : z < y
            · rw [lexLt, if_neg hyz, if_pos hzy] at hbc
              exact absurd hbc (by simp)
            · have hyzeq : y = z := le_antisymm (not_lt.mp hzy) (not_lt.mp hyz)
              subst hyzeq
              simp [lexLt, hxy]
        · by_cases hyx : y < x
          · rw [lexLt, if_neg hxy, if_pos hyx] at hab
            exact absurd hab (by simp)
          · have hxyeq : x = y := le_antisymm (not_lt.mp hyx) (not_lt.mp hxy)
            subst hxyeq
            rw [lexLt, if_neg hxy, if_neg hxy] at hab
            by_cases hxz : x < z
            · simp [lexLt, hxz]
            · by_cases hzx : z < x
              · rw [lexLt, if_neg hxz, if_pos hzx] at hbc
                exact absurd hbc (by simp)
              · have hxzeq : x = z := le_antisymm (not_lt.mp hzx) (not_lt.mp hxz)
                subst hxzeq
                rw [lexLt, if_neg hxz, if_neg hxz] at hbc
                rw [lexLt, if_neg hxz, if_neg hxz]
                exact ih ys zs hab hbc

theorem lexLt_asymm {a b : List Char} (h : lexLt a b = true) : lexLt b a = false := by
  cases hc : lexLt b a
  · rfl
  · have := lexLt_trans a b a h hc
    rw [lexLt_irrefl a] at this
    exact Bool.noConfusion this

theorem lexLt_total : ∀ a b : List Char, a ≠ b → lexLt a b = true ∨ lexLt b a = true
  | [], [], hne => absurd rfl hne
  | [], _ :: _, _ => Or.inl (by simp [lexLt])
  | _ :: _, [], _ => Or.inr (by simp [lexLt])
  | x :: xs, y :: ys, hne => by
    rcases lt_trichotomy x y with hlt | heq | hgt
    · exact Or.inl (by simp [lexLt, hlt])
    · subst heq
      have hne' : xs ≠ ys := fun h => hne (h ▸ rfl)
      rcases lexLt_total xs ys hne' with h | h
      · exact Or.inl (by simp [lexLt, lt_irrefl, h])
      · exact Or.inr (by simp [lexLt, lt_irrefl, h])
    · exact Or.inr (by simp [lexLt, hgt, not_lt.mpr (le_of_lt hgt)])

theorem string_eq_of_data (a b : String) (h : a.data = b.data) : a = b := by
  cases a
  cases b
  cases h
  rfl

theorem strLtb_irrefl (a : String) : strLtb a a = false := lexLt_irrefl a.data

theorem strLtb_trans {a b c : String} (h1 : strLtb a b = true) (h2 : strLtb b c = true) :
    strLtb a c = true := lexLt_trans a.data b.data c.data h1 h2

theorem strLtb_asymm {a b : String} (h : strLtb a b = true) : strLtb b a = false :=
  lexLt_asymm h

theorem strLtb_total (a b : String) (hne : a ≠ b) :
    strLtb a b = true ∨ strLtb b a = true :=
  lexLt_total a.data b.data (fun h => hne (string_eq_of_data a b h))

/-! ## Stable-sort lemmas -/

theorem insSorted_perm (k : α → β) (ltb : β → β → Bool) (x : α) :
    ∀ l : List α, (insSorted k ltb x l).Perm (x :: l)
  | [] => List.Perm.refl _
  | y :: ys => by
    unfold insSorted
    by_cases h : ltb (k y) (k x) = true
    · rw [if_pos h]
    · rw [if_neg h]
      exact ((insSorted_perm k ltb x ys).cons y).trans (List.Perm.swap x y ys)

theorem insSorted_mem (k : α → β) (ltb : β → β → Bool) (x : α) (l : List α) (z : α) :
    z ∈ insSorted k ltb x l ↔ z = x ∨ z ∈ l := by
  rw [(insSorted_perm k ltb x l).mem_iff, List.mem_cons]

theorem sortJS_perm (k : α → β) (ltb : β → β → Bool) (l : List α) :
    (sortJS k ltb l).Perm l := by
  have haux : ∀ (l : List α) (acc : List α),
      (l.foldl (fun acc x => insSorted k ltb x acc) acc).Perm (acc ++ l) := by
    intro l
    induction l with
    | nil => intro acc; simp
    | cons x xs ih =>
      intro acc
      have h1 : List.foldl (fun acc x => insSorted k ltb x acc) acc (x :: xs)
          = List.foldl (fun acc x => insSorted k ltb x acc) (insSorted k ltb x acc) xs := rfl
      rw [h1]
      refine (ih _).trans ?_
      refine (List.Perm.append_right xs (insSorted_perm k ltb x acc)).trans ?_
      exact List.perm_middle.symm
  simpa using haux l []

theorem insSorted_pairwise {k : α → β} {ltb : β → β → Bool}
    (htrans : ∀ a b c, ltb a b = true → ltb b c = true → ltb a c = true)
    (hasymm : ∀ a b, ltb a b = true → ltb b a = false)
    {l : List α} (hl : l.Pairwise (fun a b => ltb (k a) (k b) = false)) (x : α) :
    (insSorted k ltb x l).Pairwise (fun a b => ltb (k a) (k b) = false) := by
  induction l with
  | nil => simp [insSorted]
  | cons y ys ih =>
    rw [List.pairwise_cons] at hl
    obtain ⟨hy, hys⟩ := hl
    unfold insSorted
    by_cases hxy : ltb (k y) (k x) = true
    · rw [if_pos hxy, List.pairwise_cons]
      refine ⟨?_, List.pairwise_cons.mpr ⟨hy, hys⟩⟩
      intro z hz
      rcases List.mem_cons.mp hz with rfl | hz
      · exact hasymm _ _ hxy
      · cases hcase : ltb (k x) (k z) with
        | false => rfl
        | true =>
          have := htrans _ _ _ hxy hcase
          rw [hy z hz] at this
          exact Bool.noConfusion this
    · rw [if_neg hxy, List.pairwise_cons]
      refine ⟨?_, ih hys⟩
      intro z hz
      rcases (insSorted_mem k ltb x ys z).mp hz with rfl | hz
      · exact Bool.of_not_eq_true hxy
      · exact hy z hz

theorem sortJS_pairwise {k : α → β} {ltb : β → β → Bool}
    (htrans : ∀ a b c, ltb a b = true → ltb b c = true → ltb a c = true)
    (hasymm : ∀ a b, ltb a b = true → ltb b a = false) (l : List α) :
    (sortJS k ltb l).Pairwise (fun a b => ltb (k a) (k b) = false) := by
  have haux : ∀ (l : List α) (acc : List α),
      acc.Pairwise (fun a b => ltb (k a) (k b) = false) →
      (l.foldl (fun acc x => insSorted k ltb x acc) acc).Pairwise
        (fun a b => ltb (k a) (k b) = false) := by
    intro l
    induction l with
    | nil => intro acc h; exact h
    | cons x xs ih => intro acc h; exact ih _ (insSorted_pairwise htrans hasymm h x)
  exact haux l [] List.Pairwise.nil

theorem pairwise_strict_of_desc {k : α → β} {ltb : β → β → Bool}
    (htotal : ∀ a b, a ≠ b → ltb a b = true ∨ ltb b a = true)
    {l : List α} (hnd : (l.map k).Nodup)
    (hs : l.Pairwise (fun a b => ltb (k a) (k b) = false)) :
    l.Pairwise (fun a b => ltb (k b) (k a) = true) := by
  have hne : l.Pairwise (fun a b => k a ≠ k b) := List.pairwise_map.mp hnd
  refine (hs.and hne).imp ?_
  rintro a b ⟨hf, hne⟩
  refine (htotal _ _ hne).resolve_left ?_
  rw [hf]
  simp

theorem insSorted_filter_key [DecidableEq β] {k : α → β} {ltb : β → β → Bool}
    (hirrefl : ∀ a, ltb a a = false) (v : β) {l : List α}
    (hl : l.Pairwise (fun a b => ltb (k a) (k b) = false)) (x : α) :
    (insSorted k ltb x l).filter (fun a => decide (k a = v))
      = l.filter (fun a => decide (k a = v)) ++ if k x = v then [x] else [] := by
  induction l with
  | nil =>
    by_cases h : k x = v <;> simp [insSorted, h]
  | cons y ys ih =>
    rw [List.pairwise_cons] at hl
    obtain ⟨hy, hys⟩ := hl
    unfold insSorted
    by_cases hxy : ltb (k y) (k x) = true
    · rw [if_pos hxy]
      by_cases hxv : k x = v
      · have hempty : ∀ z ∈ y :: ys, ¬(k z = v) := by
          intro z hz hzv
          have hzx : k z = k x := by rw [hzv, hxv]
          rcases List.mem_cons.mp hz with rfl | hz
          · rw [hzx, hirrefl (k x)] at hxy
            exact Bool.noConfusion hxy
          · have hfalse := hy z hz
            rw [hzx, hxy] at hfalse
            exact Bool.noConfusion hfalse
        have hfe : (y :: ys).filter (fun a => decide (k a = v)) = [] := by
          rw [List.filter_eq_nil_iff]
          intro a ha
          simpa using hempty a ha
        simp [List.filter_cons, hxv, hfe]
      · simp [List.filter_cons, hxv]
    · rw [if_neg hxy]
      by_cases hyv : k y = v <;> simp [List.filter_cons, hyv, ih hys]

theorem sortJS_filter_key [DecidableEq β] {k : α → β} {ltb : β → β → Bool}
    (htrans : ∀ a b c, ltb a b = true → ltb b c = true → ltb a c = true)
    (hasymm : ∀ a b, ltb a b = true → ltb b a = false)
    (hirrefl : ∀ a, ltb a a = false) (v : β) (l : List α) :
    (sortJS k ltb l).filter (fun a => decide (k a = v))
      = l.filter (fun a => decide (k a = v)) := by
  have haux : ∀ (l : List α) (acc : List α),
      acc.Pairwise (fun a b => ltb (k a) (k b) = false) →
      (l.foldl (fun acc x => insSorted k ltb x acc) acc).filter (fun a => decide (k a = v))
        = acc.filter (fun a => decide (k a = v)) ++ l.filter (fun a => decide (k a = v)) := by
    intro l
    induction l with
    | nil => intro acc _; simp
    | cons x xs ih =>
      intro acc hacc
      have h1 : List.foldl (fun acc x => insSorted k ltb x acc) acc (x :: xs)
          = List.foldl (fun acc x => insSorted k ltb x acc) (insSorted k ltb x acc) xs := rfl
      rw [h1, ih _ (insSorted_pairwise htrans hasymm hacc x),
        insSorted_filter_key hirrefl v hacc x]
      by_cases hxv : k x = v <;> simp [List.filter_cons, hxv]
  simpa using haux l [] List.Pairwise.nil

theorem sortJS_length (k : α → β) (ltb : β → β → Bool) (l : List α) :
    (sortJS k ltb l).length = l.length :=
  (sortJS_perm k ltb l).length_eq

/-! ## Store lemmas -/

theorem mem_removeLink {e : SavedItem} {link : String} {xs : List SavedItem}
    (h : e ∈ removeLink link xs) : e.link ≠ link := by
  have := List.of_mem_filter h
  simpa using this

theorem removeLink_sublist (link : String) (xs : List SavedItem) :
    (removeLink link xs).Sublist xs :=
  List.filter_sublist xs

theorem isSaved_eq_false_iff (link : String) (xs : List SavedItem) :
    isSaved link xs = false ↔ ∀ e ∈ xs, e.link ≠ link := by
  unfold isSaved
  rw [List.any_eq_false]
  constructor
  · intro h e he
    simpa using h e he
  · intro h e he
    simpa using h e he

theorem isSaved_removeLink (link : String) (xs : List SavedItem) :
    isSaved link (removeLink link xs) = false :=
  (isSaved_eq_false_iff link _).mpr (fun _ he => mem_removeLink he)

theorem isSaved_sublist_false {link : String} {xs ys : List SavedItem}
    (hsub : xs.Sublist ys) (h : isSaved link ys = false) : isSaved link xs = false :=
  (isSaved_eq_false_iff link xs).mpr
    (fun e he => (isSaved_eq_false_iff link ys).mp h e (hsub.mem he))

theorem isSaved_take_removeLink (link : String) (n : Nat) (xs : List SavedItem) :
    isSaved link ((removeLink link xs).take n) = false :=
  isSaved_sublist_false (List.take_sublist n _) (isSaved_removeLink link xs)

theorem isSaved_cons_head {p : SavedItem} {link : String} (xs : List SavedItem) (n : Nat)
    (hp : p.link = link) : isSaved link ((p :: xs).take (n + 1)) = true := by
  rw [List.take_succ_cons]
  simp [isSaved, hp]

theorem countLink_eq_zero {link : String} {xs : List SavedItem}
    (h : ∀ e ∈ xs, e.link ≠ link) :
    xs.countP (fun e => decide (e.link = link)) = 0 := by
  rw [List.countP_eq_zero]
  intro e he
  simpa using h e he

/-- The saved-list `link`s, pairwise distinct: the invariant of claim C7. -/
def linksNodup (l : List SavedItem) : Prop :=
  (l.map SavedItem.link).Nodup

theorem linksNodup_removeLink {xs : List SavedItem} (link : String)
    (h : linksNodup xs) : linksNodup (removeLink link xs) :=
  ((removeLink_sublist link xs).map SavedItem.link).nodup h

theorem linksNodup_sublist {xs ys : List SavedItem} (hsub : xs.Sublist ys)
    (h : linksNodup ys) : linksNodup xs :=
  (hsub.map SavedItem.link).nodup h

theorem linksNodup_cons_removeLink {p : SavedItem} {xs : List SavedItem} (n : Nat)
    (h : linksNodup xs) : linksNodup ((p :: removeLink p.link xs).take n) := by
  refine linksNodup_sublist (List.take_sublist n _) ?_
  unfold linksNodup
  rw [List.map_cons, List.nodup_cons]
  refine ⟨?_, linksNodup_removeLink p.link h⟩
  intro hmem
  obtain ⟨e, he, heq⟩ := List.mem_map.mp hmem
  exact mem_removeLink he heq

/-! ## Branch shapes of `toggleSaved` -/

theorem toggleSaved_guard_skip {cid : Option String} {item : FeedItem}
    (now : String) (del : DeleteOutcome) (ins : InsertOutcome) (st : StoreState)
    (h : ¬(truthy cid = true ∧ truthy item.link = true)) :
    toggleSaved cid item now del ins st = st := by
  unfold toggleSaved
  rw [if_neg]
  simpa using h

theorem toggleOptimistic_remove {cs : String} {item : FeedItem} {now : String}
    {st : StoreState} (hsaved : isSaved (itemLink item) st.saved = true) :
    toggleOptimistic cs item now st =
      { st with saved := removeLink (itemLink item) st.saved,
                cache := (removeLink (itemLink item) st.saved).take 50,
                error := none } := by
  unfold toggleOptimistic
  rw [if_pos hsaved]

theorem toggleOptimistic_add {cs : String} {item : FeedItem} {now : String}
    {st : StoreState} (hsaved : isSaved (itemLink item) st.saved = false) :
    toggleOptimistic cs item now st =
      { st with
        saved := (mkPayload cs item now :: removeLink (itemLink item) st.saved).take 50,
        cache := ((mkPayload cs item now :: removeLink (itemLink item) st.saved).take 50).take 50,
        error := none } := by
  unfold toggleOptimistic
  rw [if_neg (by simp [hsaved])]

theorem toggleSaved_remove_resolved {cid : Option String} {item : FeedItem}
    {now : String} {del : DeleteOutcome} (ins : InsertOutcome) {st : StoreState}
    (hcid : truthy cid = true) (hlink : truthy item.link = true)
    (hsaved : isSaved (itemLink item) st.saved = true) (hdel : del ≠ DeleteOutcome.reject) :
    toggleSaved cid item now del ins st =
      { st with saved := removeLink (itemLink item) st.saved,
                cache := (removeLink (itemLink item) st.saved).take 50,
                error := none } := by
  unfold toggleSaved
  rw [if_pos (by rw [hcid, hlink]; rfl)]
  unfold toggleSettle
  rw [hsaved, if_pos rfl, toggleOptimistic_remove hsaved]
  cases del with
  | reject => exact absurd rfl hdel
  | resolvedOk => rfl
  | resolvedErr => rfl

theorem toggleSaved_remove_reject {cid : Option String} {item : FeedItem}
    {now : String} (ins : InsertOutcome) {st : StoreState}
    (hcid : truthy cid = true) (hlink : truthy item.link = true)
    (hsaved : isSaved (itemLink item) st.saved = true) :
    toggleSaved cid item now DeleteOutcome.reject ins st =
      { st with saved := st.saved, cache := st.saved.take 50, error := some errMsg } := by
  unfold toggleSaved
  rw [if_pos (by rw [hcid, hlink]; rfl)]
  unfold toggleSettle
  rw [hsaved, if_pos rfl, toggleOptimistic_remove hsaved]

theorem toggleSaved_add_ok {cid : Option String} {item : FeedItem}
    {now : String} (del : DeleteOutcome) {srv : SavedItem} {st : StoreState}
    (hcid : truthy cid = true) (hlink : truthy item.link = true)
    (hsaved : isSaved (itemLink item) st.saved = false) :
    toggleSaved cid item now del (InsertOutcome.ok srv) st =
      { st with
        saved := (srv :: removeLink srv.link
          ((mkPayload (cid.getD "") item now :: removeLink (itemLink item) st.saved).take 50)).take 50,
        cache := ((srv :: removeLink srv.link
          ((mkPayload (cid.getD "") item now :: removeLink (itemLink item) st.saved).take 50)).take 50).take 50,
        error := none } := by
  unfold toggleSaved
  rw [if_pos (by rw [hcid, hlink]; rfl)]
  unfold toggleSettle
  rw [hsaved, if_neg (by simp), toggleOptimistic_add hsaved]

theorem toggleSaved_add_fail {cid : Option String} {item : FeedItem}
    {now : String} (del : DeleteOutcome) {ins : InsertOutcome} {st : StoreState}
    (hcid : truthy cid = true) (hlink : truthy item.link = true)
    (hsaved : isSaved (itemLink item) st.saved = false)
    (hins : ins = InsertOutcome.httpErr ∨ ins = InsertOutcome.reject) :
    toggleSaved cid item now del ins st =
      { st with saved := st.saved, cache := st.saved.take 50, error := some errMsg } := by
  unfold toggleSaved
  rw [if_pos (by rw [hcid, hlink]; rfl)]
  unfold toggleSettle
  rw [hsaved, if_neg (by simp), toggleOptimistic_add hsaved]
  rcases hins with rfl | rfl <;> rfl

theorem toggleSaved_add_okNoItem {cid : Option String} {item : FeedItem}
    {now : String} (del : DeleteOutcome) {st : StoreState}
    (hcid : truthy cid = true) (hlink : truthy item.link = true)
    (hsaved : isSaved (itemLink item) st.saved = false) :
    toggleSaved cid item now del InsertOutcome.okNoItem st =
      { st with
        saved := (mkPayload (cid.getD "") item now :: removeLink (itemLink item) st.saved).take 50,
        cache := ((mkPayload (cid.getD "") item now :: removeLink (itemLink item) st.saved).take 50).take 50,
        error := none } := by
  unfold toggleSaved
  rw [if_pos (by rw [hcid, hlink]; rfl)]
  unfold toggleSettle
  rw [hsaved, if_neg (by simp), toggleOptimistic_add hsaved]

theorem countLink_add_ok (srv : SavedItem) (link : String) (X : List SavedItem)
    (hsrv : srv.link = link) :
    ((srv :: removeLink srv.link X).take 50).countP (fun e => decide (e.link = link)) = 1 := by
  rw [show (50 : Nat) = 49 + 1 from rfl, List.take_succ_cons, List.countP_cons]
  rw [countLink_eq_zero ?_]
  · simp [hsrv]
  · intro e he
    have hne := mem_removeLink ((List.take_sublist 49 _).mem he)
    rw [hsrv] at hne
    exact hne

/-! ## Claim C1 -/

/-- C1: for every saved-set state and briefing item with a present `clientId`
and `item.link` that is not currently saved, if the remote insert fails (a
non-2xx response or a rejected fetch), then after `toggleSaved` settles the
in-memory `saved` list and the persisted cache equal their pre-mutation
snapshots, `isSaved(item.link)` returns its pre-call value `false`, and
`error` is set to a message.  The cache hypothesis is the invariant the
provider maintains (`persistSavedCache(saved)` runs on every change of
`saved`). -/
theorem toggleSaved_insert_failure_rollback
    (cid : Option String) (item : FeedItem) (now : String) (del : DeleteOutcome)
    (ins : InsertOutcome) (st : StoreState)
    (hcid : truthy cid = true) (hlink : truthy item.link = true)
    (hsaved : isSaved (itemLink item) st.saved = false)
    (hcache : st.cache = st.saved.take 50)
    (hins : ins = InsertOutcome.httpErr ∨ ins = InsertOutcome.reject) :
    (toggleSaved cid item now del ins st).saved = st.saved ∧
    (toggleSaved cid item now del ins st).cache = st.cache ∧
    isSaved (itemLink item) (toggleSaved cid item now del ins st).saved = false ∧
    (toggleSaved cid item now del ins st).error.isSome = true := by
  rw [toggleSaved_add_fail del hcid hlink hsaved hins]
  exact ⟨rfl, hcache.symm, hsaved, rfl⟩

/-- Witness for C1 at a concrete unsaved link and a non-2xx insert. -/
theorem toggleSaved_insert_failure_rollback_witness :
    (toggleSaved (some "c") { link := some "L" } "t" DeleteOutcome.resolvedOk
      InsertOutcome.httpErr (StoreState.mk [] [] none)).saved = [] ∧
    (toggleSaved (some "c") { link := some "L" } "t" DeleteOutcome.resolvedOk
      InsertOutcome.httpErr (StoreState.mk [] [] none)).cache = [] ∧
    isSaved (itemLink { link := some "L" })
      ((toggleSaved (some "c") { link := some "L" } "t" DeleteOutcome.resolvedOk
        InsertOutcome.httpErr (StoreState.mk [] [] none)).saved) = false ∧
    (toggleSaved (some "c") { link := some "L" } "t" DeleteOutcome.resolvedOk
      InsertOutcome.httpErr (StoreState.mk [] [] none)).error.isSome = true :=
  toggleSaved_insert_failure_rollback (some "c") { link := some "L" } "t"
    DeleteOutcome.resolvedOk InsertOutcome.httpErr (StoreState.mk [] [] none)
    (by decide) (by decide) (by decide) (by decide) (Or.inl rfl)

/-! ## Claim C9 -/

/-- C9 counterexample: a rejected remote delete IS rolled back by the `catch`
handler (`setSaved(previous)`), so the entry does not stay absent: starting
from a state whose only entry has link `"L"`, toggling `"L"` with a rejected
DELETE leaves `isSaved "L"` true, contradicting the claim that the removal
is never rolled back. -/
theorem toggleSaved_delete_reject_rollback_cex :
    isSaved "L" ((toggleSaved (some "c") { link := some "L" } "t" DeleteOutcome.reject
      InsertOutcome.okNoItem
      (StoreState.mk [{ link := "L" }] [{ link := "L" }] none)).saved) = true := by
  decide

/-- C9 (amended): when `toggleSaved` is called on a currently saved link, the
entry is removed from `saved` and from the cache before the remote delete is
issued (the optimistic phase); when the delete resolves — even with an error
HTTP status, which the code never checks — the removal is kept and no error
is surfaced; but when the fetch itself rejects, the `catch` handler rolls the
removal back to the pre-mutation snapshot and surfaces an error. -/
theorem toggleSaved_delete_behavior
    (cid : Option String) (item : FeedItem) (now : String) (ins : InsertOutcome)
    (st : StoreState)
    (hcid : truthy cid = true) (hlink : truthy item.link = true)
    (hsaved : isSaved (itemLink item) st.saved = true)
    (hcache : st.cache = st.saved.take 50) :
    (isSaved (itemLink item) (toggleOptimistic (cid.getD "") item now st).saved = false ∧
     isSaved (itemLink item) (toggleOptimistic (cid.getD "") item now st).cache = false) ∧
    (∀ del, del ≠ DeleteOutcome.reject →
      isSaved (itemLink item) (toggleSaved cid item now del ins st).saved = false ∧
      isSaved (itemLink item) (toggleSaved cid item now del ins st).cache = false ∧
      (toggleSaved cid item now del ins st).error = none) ∧
    ((toggleSaved cid item now DeleteOutcome.reject ins st).saved = st.saved ∧
     (toggleSaved cid item now DeleteOutcome.reject ins st).cache = st.cache ∧
     (toggleSaved cid item now DeleteOutcome.reject ins st).error.isSome = true) := by
  refine ⟨?_, ?_, ?_⟩
  · rw [toggleOptimistic_remove hsaved]
    exact ⟨isSaved_removeLink _ _, isSaved_take_removeLink _ _ _⟩
  · intro del hdel
    rw [toggleSaved_remove_resolved ins hcid hlink hsaved hdel]
    exact ⟨isSaved_removeLink _ _, isSaved_take_removeLink _ _ _, rfl⟩
  · rw [toggleSaved_remove_reject ins hcid hlink hsaved]
    exact ⟨rfl, hcache.symm, rfl⟩

/-- Witness for C9 (amended) at a concrete saved link: a resolved error
response keeps the entry absent, a rejected fetch restores the snapshot. -/
theorem toggleSaved_delete_behavior_witness :
    isSaved "L" ((toggleSaved (some "c") { link := some "L" } "t"
      DeleteOutcome.resolvedErr InsertOutcome.okNoItem
      (StoreState.mk [{ link := "L" }] [{ link := "L" }] none)).saved) = false ∧
    (toggleSaved (some "c") { link := some "L" } "t" DeleteOutcome.reject
      InsertOutcome.okNoItem
      (StoreState.mk [{ link := "L" }] [{ link := "L" }] none)).saved
        = [{ link := "L" }] := by
  have h := toggleSaved_delete_behavior (some "c") { link := some "L" } "t"
    InsertOutcome.okNoItem (StoreState.mk [{ link := "L" }] [{ link := "L" }] none)
    (by decide) (by decide) (by decide) (by decide)
  exact ⟨(h.2.1 DeleteOutcome.resolvedErr (by decide)).1, h.2.2.1⟩

/-! ## Claim C7 -/

/-- C7: starting from any saved list with pairwise distinct links, the
optimistic phase of `toggleSaved` and the settled result of `toggleSaved` —
the optimistic prepend, the post-success replacement by the server item, the
removal, and every failure rollback alike — again have pairwise distinct
links: no duplicate entries for the same link are ever introduced. -/
theorem toggleSaved_no_duplicate_links
    (cs : String) (cid : Option String) (item : FeedItem) (now : String)
    (del : DeleteOutcome) (ins : InsertOutcome) (st : StoreState)
    (h : linksNodup st.saved) :
    linksNodup (toggleOptimistic cs item now st).saved ∧
    linksNodup (toggleSaved cid item now del ins st).saved := by
  constructor
  · unfold toggleOptimistic
    by_cases hs : isSaved (itemLink item) st.saved = true
    · rw [if_pos hs]
      exact linksNodup_removeLink _ h
    · rw [if_neg hs]
      exact linksNodup_cons_removeLink 50 h
  · by_cases hguard : truthy cid = true ∧ truthy item.link = true
    · obtain ⟨hcid, hlink⟩ := hguard
      by_cases hs : isSaved (itemLink item) st.saved = true
      · cases del with
        | reject =>
          rw [toggleSaved_remove_reject ins hcid hlink hs]
          exact h
        | resolvedOk =>
          rw [toggleSaved_remove_resolved ins hcid hlink hs (by simp)]
          exact linksNodup_removeLink _ h
        | resolvedErr =>
          rw [toggleSaved_remove_resolved ins hcid hlink hs (by simp)]
          exact linksNodup_removeLink _ h
      · have hs' : isSaved (itemLink item) st.saved = false := Bool.of_not_eq_true hs
        cases ins with
        | ok srv =>
          rw [toggleSaved_add_ok del hcid hlink hs']
          exact linksNodup_cons_removeLink 50 (linksNodup_cons_removeLink 50 h)
        | okNoItem =>
          rw [toggleSaved_add_okNoItem del hcid hlink hs']
          exact linksNodup_cons_removeLink 50 h
        | httpErr =>
          rw [toggleSaved_add_fail del hcid hlink hs' (Or.inl rfl)]
          exact h
        | reject =>
          rw [toggleSaved_add_fail del hcid hlink hs' (Or.inr rfl)]
          exact h
    · rw [toggleSaved_guard_skip now del ins st hguard]
      exact h

/-- Witness for C7 on a concrete two-entry duplicate-free state. -/
theorem toggleSaved_no_duplicate_links_witness :
    linksNodup ((toggleOptimistic "c" { link := some "L" } "t"
      (StoreState.mk [{ link := "L" }, { link := "M" }] [] none)).saved) ∧
    linksNodup ((toggleSaved (some "c") { link := some "L" } "t"
      DeleteOutcome.resolvedOk InsertOutcome.okNoItem
      (StoreState.mk [{ link := "L" }, { link := "M" }] [] none)).saved) :=
  toggleSaved_no_duplicate_links "c" (some "c") { link := some "L" } "t"
    DeleteOutcome.resolvedOk InsertOutcome.okNoItem
    (StoreState.mk [{ link := "L" }, { link := "M" }] [] none)
    (by unfold linksNodup; decide)

theorem isSaved_toggle_add_ok {cid : Option String} {item : FeedItem} {now : String}
    {srv : SavedItem} {st : StoreState}
    (hcid : truthy cid = true) (hlink : truthy item.link = true)
    (hs : isSaved (itemLink item) st.saved = false) (hsrv : srv.link = itemLink item) :
    isSaved (itemLink item)
      (toggleSaved cid item now DeleteOutcome.resolvedOk (InsertOutcome.ok srv) st).saved
      = true := by
  rw [toggleSaved_add_ok DeleteOutcome.resolvedOk hcid hlink hs]
  exact isSaved_cons_head _ 49 hsrv

theorem isSaved_toggle_remove {cid : Option String} {item : FeedItem} {now : String}
    {ins : InsertOutcome} {st : StoreState}
    (hcid : truthy cid = true) (hlink : truthy item.link = true)
    (hs : isSaved (itemLink item) st.saved = true) :
    isSaved (itemLink item)
      (toggleSaved cid item now DeleteOutcome.resolvedOk ins st).saved = false := by
  rw [toggleSaved_remove_resolved ins hcid hlink hs (by simp)]
  exact isSaved_removeLink _ _

theorem count_toggle_add_ok {cid : Option String} {item : FeedItem} {now : String}
    {srv : SavedItem} {st : StoreState}
    (hcid : truthy cid = true) (hlink : truthy item.link = true)
    (hs : isSaved (itemLink item) st.saved = false) (hsrv : srv.link = itemLink item) :
    (toggleSaved cid item now DeleteOutcome.resolvedOk (InsertOutcome.ok srv) st).saved.countP
      (fun e => decide (e.link = itemLink item)) = 1 := by
  rw [toggleSaved_add_ok DeleteOutcome.resolvedOk hcid hlink hs]
  exact countLink_add_ok srv (itemLink item) _ hsrv

/-! ## Claim C8 -/

/-- C8: calling `toggleSaved` twice in sequence on the same link, each remote
call succeeding and settling before the next call (and the server returning
items with the requested link), returns the briefing to its original
saved/unsaved status; and starting unsaved, the save→unsave→save sequence
nets exactly one saved entry for that link, not a duplicate. -/
theorem toggleSaved_double_toggle
    (cid : Option String) (item : FeedItem) (now1 now2 now3 : String)
    (srv1 srv2 srv3 : SavedItem) (st : StoreState)
    (hcid : truthy cid = true) (hlink : truthy item.link = true)
    (h1 : srv1.link = itemLink item) (h2 : srv2.link = itemLink item)
    (h3 : srv3.link = itemLink item) :
    isSaved (itemLink item)
      ((toggleSaved cid item now2 DeleteOutcome.resolvedOk (InsertOutcome.ok srv2)
        (toggleSaved cid item now1 DeleteOutcome.resolvedOk (InsertOutcome.ok srv1) st)).saved)
      = isSaved (itemLink item) st.saved ∧
    (isSaved (itemLink item) st.saved = false →
      ((toggleSaved cid item now3 DeleteOutcome.resolvedOk (InsertOutcome.ok srv3)
        (toggleSaved cid item now2 DeleteOutcome.resolvedOk (InsertOutcome.ok srv2)
          (toggleSaved cid item now1 DeleteOutcome.resolvedOk (InsertOutcome.ok srv1) st))).saved).countP
        (fun e => decide (e.link = itemLink item)) = 1) := by
  constructor
  · by_cases h0 : isSaved (itemLink item) st.saved = true
    · rw [h0]
      have hs1 : isSaved (itemLink item)
          (toggleSaved cid item now1 DeleteOutcome.resolvedOk (InsertOutcome.ok srv1) st).saved
          = false := isSaved_toggle_remove hcid hlink h0
      exact isSaved_toggle_add_ok hcid hlink hs1 h2
    · have hs0 : isSaved (itemLink item) st.saved = false := Bool.of_not_eq_true h0
      rw [hs0]
      have hs1 : isSaved (itemLink item)
          (toggleSaved cid item now1 DeleteOutcome.resolvedOk (InsertOutcome.ok srv1) st).saved
          = true := isSaved_toggle_add_ok hcid hlink hs0 h1
      exact isSaved_toggle_remove hcid hlink hs1
  · intro hs0
    have hs1 : isSaved (itemLink item)
        (toggleSaved cid item now1 DeleteOutcome.resolvedOk (InsertOutcome.ok srv1) st).saved
        = true := isSaved_toggle_add_ok hcid hlink hs0 h1
    have hs2 : isSaved (itemLink item)
        (toggleSaved cid item now2 DeleteOutcome.resolvedOk (InsertOutcome.ok srv2)
          (toggleSaved cid item now1 DeleteOutcome.resolvedOk (InsertOutcome.ok srv1) st)).saved
        = false := isSaved_toggle_remove hcid hlink hs1
    exact count_toggle_add_ok hcid hlink hs2 h3

/-- Witness for C8 starting from the empty saved set. -/
theorem toggleSaved_double_toggle_witness :
    isSaved (itemLink { link := some "L" })
      ((toggleSaved (some "c") { link := some "L" } "t2" DeleteOutcome.resolvedOk
        (InsertOutcome.ok { link := "L" })
        (toggleSaved (some "c") { link := some "L" } "t1" DeleteOutcome.resolvedOk
          (InsertOutcome.ok { link := "L" }) (StoreState.mk [] [] none))).saved) = false ∧
    ((toggleSaved (some "c") { link := some "L" } "t3" DeleteOutcome.resolvedOk
        (InsertOutcome.ok { link := "L" })
        (toggleSaved (some "c") { link := some "L" } "t2" DeleteOutcome.resolvedOk
          (InsertOutcome.ok { link := "L" })
          (toggleSaved (some "c") { link := some "L" } "t1" DeleteOutcome.resolvedOk
            (InsertOutcome.ok { link := "L" }) (StoreState.mk [] [] none)))).saved).countP
      (fun e => decide (e.link = itemLink { link := some "L" })) = 1 := by
  have h := toggleSaved_double_toggle (some "c") { link := some "L" } "t1" "t2" "t3"
    { link := "L" } { link := "L" } { link := "L" } (StoreState.mk [] [] none)
    (by decide) (by decide) (by decide) (by decide) (by decide)
  exact ⟨h.1.trans (by decide), h.2 (by decide)⟩

/-! ## Claim C3 -/

/-- The claim-side count: items whose `type` lower-cases to `name` (an item
with a missing type has no type that lower-cases to anything, so `getD ""`
is faithful for each of the four non-empty heatmap names). -/
def typeLowerCount (name : String) (iocs : List Ioc) : Nat :=
  iocs.countP (fun i => decide (toLowerStr (i.type.getD "") = name))

theorem iocKey_eq_iff (name : String) (h1 : ¬("" = name)) (h2 : ¬("other" = name))
    (i : Ioc) : iocKey i = name ↔ toLowerStr (i.type.getD "") = name := by
  unfold iocKey jsOr
  cases ht : i.type with
  | none =>
    have hoth : toLowerStr "other" = "other" := by decide
    have hemp : toLowerStr "" = "" := by decide
    simp [hoth, hemp, h1, h2]
  | some t =>
    by_cases he : t = ""
    · subst he
      have hoth : toLowerStr "other" = "other" := by decide
      have hemp : toLowerStr "" = "" := by decide
      simp [hoth, hemp, h1, h2]
    · have hbe : (t == "") = false := by
        rw [beq_eq_false_iff_ne]
        exact he
      simp [hbe]

theorem heatmapCount_eq (name : String) (h1 : ¬("" = name)) (h2 : ¬("other" = name))
    (iocs : List Ioc) :
    lookupD name (buildMap iocKey iocs) = typeLowerCount name iocs := by
  rw [buildMap_eq_foldBump, foldBump_lookupD]
  have hbase : lookupD name ([] : CountMap) = 0 := rfl
  rw [hbase, Nat.zero_add]
  unfold typeLowerCount
  apply List.countP_congr
  intro i _
  simp only [decide_eq_true_eq, Option.some_inj]
  exact iocKey_eq_iff name h1 h2 i

/-- C3: for every IOC collection (the empty one included) `calcIocHeatmap`
returns exactly four entries named domain, ip, cve, hash in that fixed
order, each count (a `Nat`, hence ≥ 0) equal to the number of input items
whose `type` lower-cases to that name; and the spec scenario
`[{type:"IP"}, {type:"ip"}, {type:"CVE"}]` yields
`[{domain:0},{ip:2},{cve:1},{hash:0}]`. -/
theorem calcIocHeatmap_shape :
    (∀ iocs : List Ioc,
      calcIocHeatmap iocs =
        [NameCount.mk "domain" (typeLowerCount "domain" iocs),
         NameCount.mk "ip" (typeLowerCount "ip" iocs),
         NameCount.mk "cve" (typeLowerCount "cve" iocs),
         NameCount.mk "hash" (typeLowerCount "hash" iocs)]) ∧
    calcIocHeatmap [{ type := some "IP" }, { type := some "ip" }, { type := some "CVE" }] =
      [NameCount.mk "domain" 0, NameCount.mk "ip" 2,
       NameCount.mk "cve" 1, NameCount.mk "hash" 0] := by
  constructor
  · intro iocs
    unfold calcIocHeatmap
    rw [List.map_cons, List.map_cons, List.map_cons, List.map_cons, List.map_nil]
    rw [heatmapCount_eq "domain" (by decide) (by decide) iocs,
      heatmapCount_eq "ip" (by decide) (by decide) iocs,
      heatmapCount_eq "cve" (by decide) (by decide) iocs,
      heatmapCount_eq "hash" (by decide) (by decide) iocs]
  · decide

/-! ## Claim C5 -/

/-- Count of items whose lower-cased, non-empty `type` equals `k` — the
contribution `summariseIocs` records for key `k`. -/
def summTypeCount (k : String) (iocs : List Ioc) : Nat :=
  iocs.countP (fun i => decide (summKey i = some k))

theorem summ_lookupD (k : String) (iocs : List Ioc) :
    lookupD k (summariseIocs iocs) = summTypeCount k iocs := by
  rw [summariseIocs_eq_foldBump, foldBump_lookupD]
  have hbase : lookupD k [("ip", 0), ("domain", 0), ("cve", 0)] = 0 := by
    simp only [lookupD, lookupKV]
    split_ifs <;> rfl
  rw [hbase, Nat.zero_add]
  rfl

theorem summ_mem_keys (k : String) (iocs : List Ioc) :
    k ∈ (summariseIocs iocs).map Prod.fst ↔
      (k = "ip" ∨ k = "domain" ∨ k = "cve") ∨ ∃ i ∈ iocs, summKey i = some k := by
  rw [summariseIocs_eq_foldBump, foldBump_mem_keys]
  constructor
  · rintro (h | h)
    · left
      simpa [eq_comm] using h
    · exact Or.inr h
  · rintro (h | h)
    · left
      simpa [eq_comm] using h
    · exact Or.inr h

/-- C5 counterexample: an IOC of type `"Hash"` — neither ip, domain nor cve —
IS accumulated in the result: the reduce writes a fourth key `"hash"` with
count 1 into the accumulator object, contradicting the claim that other
types are not accumulated anywhere in the result. -/
theorem summariseIocs_extra_key_cex :
    summariseIocs [{ type := some "Hash" }] =
      [("ip", 0), ("domain", 0), ("cve", 0), ("hash", 1)] := by
  decide

/-- C5 (amended): `summariseIocs` always carries the three initialized keys
ip, domain, cve, each counting the items whose type lower-cases to it, and
items with a missing or empty type are skipped; but an item of any other
truthy type is also accumulated, under its lower-cased type as an extra key
of the result (absent only when its count is zero). -/
theorem summariseIocs_lookup (iocs : List Ioc) (k : String) :
    lookupKV k (summariseIocs iocs) =
      if k = "ip" ∨ k = "domain" ∨ k = "cve" then some (summTypeCount k iocs)
      else if summTypeCount k iocs = 0 then none
      else some (summTypeCount k iocs) := by
  by_cases hk : k = "ip" ∨ k = "domain" ∨ k = "cve"
  · rw [if_pos hk]
    have hmem : k ∈ (summariseIocs iocs).map Prod.fst :=
      (summ_mem_keys k iocs).mpr (Or.inl hk)
    cases hl : lookupKV k (summariseIocs iocs) with
    | none => exact absurd ((lookupKV_eq_none_iff k _).mp hl) (by simpa using hmem)
    | some v =>
      have hv : lookupD k (summariseIocs iocs) = v := by
        unfold lookupD
        rw [hl]
        rfl
      rw [summ_lookupD] at hv
      rw [hv]
  · rw [if_neg hk]
    by_cases hc : summTypeCount k iocs = 0
    · rw [if_pos hc]
      rw [lookupKV_eq_none_iff]
      intro hmem
      rcases (summ_mem_keys k iocs).mp hmem with h | ⟨i, hi, hki⟩
      · exact hk h
      · have hpos : 0 < summTypeCount k iocs :=
          List.countP_pos_iff.mpr ⟨i, hi, by simp [hki]⟩
        omega
    · rw [if_neg hc]
      have hmem : k ∈ (summariseIocs iocs).map Prod.fst := by
        obtain ⟨i, hi, hp⟩ := List.countP_pos_iff.mp (Nat.pos_of_ne_zero hc)
        exact (summ_mem_keys k iocs).mpr (Or.inr ⟨i, hi, of_decide_eq_true hp⟩)
      cases hl : lookupKV k (summariseIocs iocs) with
      | none => exact absurd ((lookupKV_eq_none_iff k _).mp hl) (by simpa using hmem)
      | some v =>
        have hv : lookupD k (summariseIocs iocs) = v := by
          unfold lookupD
          rw [hl]
          rfl
        rw [summ_lookupD] at hv
        rw [hv]

/-! ## Claim C10 -/

/-- C10: loading the durable saved-briefings cache is total and never
corrupts state: an absent slot, text `JSON.parse` rejects, and JSON that is
not an array all yield the empty list (the `try`/`catch` absorbing the
throw), and a non-empty result can only come from a parsed JSON array,
returned as is. -/
theorem loadSavedCache_total (slot : Option String)
    (parseJson : String → Option CacheJson) :
    (slot = none → loadSavedCache slot parseJson = []) ∧
    (∀ raw, slot = some raw → parseJson raw = none → loadSavedCache slot parseJson = []) ∧
    (∀ raw, slot = some raw → parseJson raw = some CacheJson.nonArray →
      loadSavedCache slot parseJson = []) ∧
    (loadSavedCache slot parseJson ≠ [] →
      ∃ raw items, slot = some raw ∧ parseJson raw = some (CacheJson.arr items) ∧
        loadSavedCache slot parseJson = items) := by
  refine ⟨?_, ?_, ?_, ?_⟩
  · rintro rfl
    rfl
  · rintro raw rfl hp
    simp only [loadSavedCache]
    by_cases hr : raw = ""
    · rw [if_pos hr]
    · rw [if_neg hr, hp]
  · rintro raw rfl hp
    simp only [loadSavedCache]
    by_cases hr : raw = ""
    · rw [if_pos hr]
    · rw [if_neg hr, hp]
  · intro hne
    cases slot with
    | none => simp [loadSavedCache] at hne
    | some raw =>
      simp only [loadSavedCache] at hne ⊢
      by_cases hr : raw = ""
      · rw [if_pos hr] at hne
        exact absurd rfl hne
      · rw [if_neg hr] at hne ⊢
        cases hp : parseJson raw with
        | none =>
          rw [hp] at hne
          exact absurd rfl hne
        | some j =>
          cases j with
          | nonArray =>
            rw [hp] at hne
            exact absurd rfl hne
          | arr items => exact ⟨raw, items, rfl, hp, rfl⟩

/-- Witness for C10 on the three degenerate slot contents. -/
theorem loadSavedCache_total_witness :
    loadSavedCache none (fun _ => none) = [] ∧
    loadSavedCache (some "oops") (fun _ => none) = [] ∧
    loadSavedCache (some "3") (fun _ => some CacheJson.nonArray) = [] :=
  ⟨(loadSavedCache_total none (fun _ => none)).1 rfl,
   (loadSavedCache_total (some "oops") (fun _ => none)).2.1 "oops" rfl rfl,
   (loadSavedCache_total (some "3") (fun _ => some CacheJson.nonArray)).2.2.1 "3" rfl rfl⟩

/-! ## Claim C2 -/

/-- C2 counterexample: `groupByDate` is not total over malformed dates: for a
date environment whose parser rejects the string `"not-a-date"` (as the JS
platform's `new Date("not-a-date")` does, giving an Invalid Date), the item
is not bucketed as "now" — instead `toISOString()` throws a RangeError and
`groupByDate` aborts, modelled by `Except.error ()`. -/
theorem groupByDate_throws_on_malformed_date :
    groupByDate (JsDateEnv.mk (fun _ => none) (fun _ => "1970-01-01") 0)
      [{ published_at := some "not-a-date" }] = Except.error () := rfl

theorem groupByDateAux_isOk (env : JsDateEnv) :
    ∀ (feeds : List FeedItem) (m : CountMap),
      (groupByDateAux env m feeds).isOk = true ↔
        ∀ i ∈ feeds, (dateKey env i).isOk = true := by
  intro feeds
  induction feeds with
  | nil => intro m; simp [groupByDateAux, Except.isOk, Except.toBool]
  | cons i rest ih =>
    intro m
    cases hd : dateKey env i with
    | error e =>
      constructor
      · intro h
        rw [show groupByDateAux env m (i :: rest) = Except.error e from by
          simp [groupByDateAux, hd]] at h
        exact Bool.noConfusion h
      · intro h
        have := h i (List.mem_cons_self i rest)
        rw [hd] at this
        exact Bool.noConfusion this
    | ok key =>
      rw [show groupByDateAux env m (i :: rest) = groupByDateAux env (bump key m) rest from by
        simp [groupByDateAux, hd]]
      rw [ih (bump key m)]
      constructor
      · intro h j hj
        rcases List.mem_cons.mp hj with rfl | hj
        · rw [hd]; rfl
        · exact h j hj
      · intro h j hj
        exact h j (List.mem_cons_of_mem i hj)

theorem groupByDate_isOk_iff (env : JsDateEnv) (feeds : List FeedItem) :
    (groupByDate env feeds).isOk = true ↔ ∀ i ∈ feeds, (dateKey env i).isOk = true := by
  rw [← groupByDateAux_isOk env feeds []]
  unfold groupByDate
  cases groupByDateAux env [] feeds <;> simp [Except.map, Except.isOk, Except.toBool]

/-- C2 (amended): the AggregationEngine functions are total over missing
fields — a missing date defaults to "now" at call time, a missing source or
type defaults to "unknown"/"other", a missing or empty `summariseIocs` type
is skipped, a missing risk never counts as high, and missing title and
description contribute no topics — with one exception: `groupByDate` throws
(RangeError from `toISOString` on an Invalid Date) exactly when some item
carries a present `published_at`/`fetched_at` string the platform cannot
parse; on inputs whose present date strings all parse it returns a value. -/
theorem aggregation_totality :
    (∀ (env : JsDateEnv) (feeds : List FeedItem),
      (groupByDate env feeds).isOk = true ↔ ∀ i ∈ feeds, (dateKey env i).isOk = true) ∧
    (∀ (env : JsDateEnv) (i : FeedItem) (s : String),
      effectiveDate i = some s → env.parse s = none → dateKey env i = Except.error ()) ∧
    (∀ (env : JsDateEnv) (i : FeedItem),
      effectiveDate i = none → dateKey env i = Except.ok (env.fmtDay env.now)) ∧
    (∀ i : FeedItem, i.source = none → sourceKey i = "unknown") ∧
    (∀ x : Ioc, x.type = none → iocKey x = "other") ∧
    (∀ x : Ioc, x.type = none → summKey x = none) ∧
    (∀ i : FeedItem, i.risk = none → highRiskLevel i = false) ∧
    (∀ i : FeedItem, i.title = none → i.description = none →
      (tokensOf i).filter topicWord = []) := by
  refine ⟨groupByDate_isOk_iff, ?_, ?_, ?_, ?_, ?_, ?_, ?_⟩
  · intro env i s hs hp
    simp [dateKey, hs, hp]
  · intro env i h
    simp [dateKey, h]
  · intro i h
    unfold sourceKey
    rw [h]
    decide
  · intro x h
    unfold iocKey
    rw [h]
    decide
  · intro x h
    simp [summKey, h]
  · intro i h
    simp [highRiskLevel, h]
  · intro i h1 h2
    simp only [tokensOf, h1, h2]
    decide

/-- Witness for C2 (amended): a one-item input whose date parses is `.ok`, a
rejected date string errors, and each defaulting clause evaluated at a
record with the field missing. -/
theorem aggregation_totality_witness :
    (groupByDate (JsDateEnv.mk (fun s => if s = "2024-05-05" then some 5 else none)
        (fun t => if t = 5 then "2024-05-05" else "1970-01-01") 9)
      [{ published_at := some "2024-05-05" }]).isOk = true ∧
    dateKey (JsDateEnv.mk (fun _ => none) (fun _ => "1970-01-01") 0)
      { published_at := some "zzz" } = Except.error () ∧
    dateKey (JsDateEnv.mk (fun _ => none) (fun _ => "1970-01-01") 0)
      ({} : FeedItem) = Except.ok "1970-01-01" ∧
    sourceKey ({} : FeedItem) = "unknown" ∧
    iocKey ({} : Ioc) = "other" ∧
    summKey ({} : Ioc) = none ∧
    highRiskLevel ({} : FeedItem) = false ∧
    (tokensOf ({} : FeedItem)).filter topicWord = [] := by
  refine ⟨?_, ?_, ?_, ?_, ?_, ?_, ?_, ?_⟩
  · exact (aggregation_totality.1 _ _).mpr (by decide)
  · exact aggregation_totality.2.1 _ _ "zzz" rfl rfl
  · exact aggregation_totality.2.2.1 _ _ rfl
  · exact aggregation_totality.2.2.2.1 _ rfl
  · exact aggregation_totality.2.2.2.2.1 _ rfl
  · exact aggregation_totality.2.2.2.2.2.1 _ rfl
  · exact aggregation_totality.2.2.2.2.2.2.1 _ rfl
  · exact aggregation_totality.2.2.2.2.2.2.2 _ rfl rfl

/-! ## Entry characterization of the count maps -/

theorem mem_of_lookupKV : ∀ {m : CountMap} {k : String} {c : Nat},
    lookupKV k m = some c → (k, c) ∈ m := by
  intro m
  induction m with
  | nil => intro k c h; exact Option.noConfusion h
  | cons p rest ih =>
    intro k c h
    obtain ⟨a, v⟩ := p
    by_cases ha : a = k
    · subst ha
      rw [lookupKV, if_pos rfl] at h
      rw [Option.some_inj] at h
      subst h
      exact List.mem_cons_self _ _
    · rw [lookupKV, if_neg ha] at h
      exact List.mem_cons_of_mem _ (ih h)

theorem mem_foldBump_count {g : α → Option String} {l : List α} {p : String × Nat}
    (hp : p ∈ foldBump g [] l) :
    p.2 = l.countP (fun i => decide (g i = some p.1)) ∧ 0 < p.2 ∧
      ∃ i ∈ l, g i = some p.1 := by
  have hnd : ((foldBump g ([] : CountMap) l).map Prod.fst).Nodup :=
    foldBump_keys_nodup g l List.nodup_nil
  have hkey : p.1 ∈ (foldBump g ([] : CountMap) l).map Prod.fst := by
    have := List.mem_map_of_mem Prod.fst hp
    simpa using this
  have hex : ∃ i ∈ l, g i = some p.1 := by
    rcases (foldBump_mem_keys g p.1 [] l).mp hkey with h | h
    · simp at h
    · exact h
  have hl : lookupKV p.1 (foldBump g [] l) = some p.2 := by
    obtain ⟨k, c⟩ := p
    exact lookupKV_of_mem_nodup hnd hp
  have hD : lookupD p.1 (foldBump g [] l) = p.2 := by
    unfold lookupD
    rw [hl]
    rfl
  rw [foldBump_lookupD] at hD
  have hbase : lookupD p.1 ([] : CountMap) = 0 := rfl
  rw [hbase, Nat.zero_add] at hD
  obtain ⟨i, hi, hgi⟩ := hex
  refine ⟨hD.symm, ?_, ⟨i, hi, hgi⟩⟩
  rw [← hD] at *
  exact List.countP_pos_iff.mpr ⟨i, hi, by simp [hgi]⟩

theorem foldBump_key_entry {g : α → Option String} {l : List α} {k : String}
    (h : ∃ i ∈ l, g i = some k) : ∃ c, (k, c) ∈ foldBump g [] l := by
  have hkey : k ∈ (foldBump g ([] : CountMap) l).map Prod.fst :=
    (foldBump_mem_keys g k [] l).mpr (Or.inr h)
  cases hl : lookupKV k (foldBump g [] l) with
  | none => exact absurd ((lookupKV_eq_none_iff k _).mp hl) (by simpa using hkey)
  | some c => exact ⟨c, mem_of_lookupKV hl⟩

/-! ## Claim C4 -/

/-- The per-source count entries in first-encounter order, before sorting
and truncation (the `Array.from(bucket.entries()).map(...)` stage). -/
def sourceEntries (feeds : List FeedItem) : List NameCount :=
  (buildMap sourceKey feeds).map (fun p => NameCount.mk p.1 p.2)

theorem groupBySource_eq (feeds : List FeedItem) :
    groupBySource feeds = (sortJS NameCount.count Nat.blt (sourceEntries feeds)).take 8 := rfl

/-- Nine feed items with nine distinct sources. -/
def feeds9 : List FeedItem :=
  [{ source := some "s1" }, { source := some "s2" }, { source := some "s3" },
   { source := some "s4" }, { source := some "s5" }, { source := some "s6" },
   { source := some "s7" }, { source := some "s8" }, { source := some "s9" }]

/-- C4 counterexample: with 9 distinct sources the result is truncated to 8
entries whose counts sum to 8, so the multiset of returned entries cannot
partition the 9 input items: the ninth source, present in the input, appears
in no returned entry. -/
theorem groupBySource_truncation_cex :
    ((groupBySource feeds9).map NameCount.count).sum = 8 ∧
    feeds9.length = 9 ∧
    ({ source := some "s9" } : FeedItem) ∈ feeds9 ∧
    sourceKey { source := some "s9" } = "s9" ∧
    "s9" ∉ (groupBySource feeds9).map NameCount.name := by
  decide

/-- C4 (amended): `groupBySource` returns the 8 largest entries of the
partition of the input by lower-cased source (missing source counted under
"unknown"): at most 8 entries, pairwise-distinct names, sorted by count
descending, each entry counting exactly the items with its key and backed by
at least one item; ties retain first-encounter order (the pre-truncation
sorted list filtered to any fixed count equals the first-encounter entry
list so filtered); when the input has at most 8 distinct keys the entries
partition the input exactly (every item's key is represented); and the spec
scenario holds. -/
theorem groupBySource_amended :
    (∀ feeds : List FeedItem,
      (groupBySource feeds).length ≤ 8 ∧
      (groupBySource feeds).Pairwise (fun a b => b.count ≤ a.count) ∧
      ((groupBySource feeds).map NameCount.name).Nodup ∧
      (∀ e ∈ groupBySource feeds,
        e.count = feeds.countP (fun i => decide (sourceKey i = e.name)) ∧ 0 < e.count ∧
        ∃ i ∈ feeds, sourceKey i = e.name) ∧
      ((sourceEntries feeds).length ≤ 8 →
        ∀ i ∈ feeds, sourceKey i ∈ (groupBySource feeds).map NameCount.name) ∧
      (∀ n : Nat,
        (sortJS NameCount.count Nat.blt (sourceEntries feeds)).filter
            (fun e => decide (e.count = n))
          = (sourceEntries feeds).filter (fun e => decide (e.count = n)))) ∧
    groupBySource [{ source := some "ThreatPost" }, { source := some "threatpost" },
        { source := some "CSO" }]
      = [NameCount.mk "threatpost" 2, NameCount.mk "cso" 1] := by
  constructor
  · intro feeds
    have hkeysnd : ((buildMap sourceKey feeds).map Prod.fst).Nodup := by
      rw [buildMap_eq_foldBump]
      exact foldBump_keys_nodup _ feeds List.nodup_nil
    have hcomp : (NameCount.name ∘ fun p : String × Nat => NameCount.mk p.1 p.2) = Prod.fst :=
      funext (fun p => rfl)
    have hnames : (sourceEntries feeds).map NameCount.name
        = (buildMap sourceKey feeds).map Prod.fst := by
      unfold sourceEntries
      rw [List.map_map, hcomp]
    have hentriesnd : ((sourceEntries feeds).map NameCount.name).Nodup := by
      rw [hnames]
      exact hkeysnd
    have hperm := sortJS_perm NameCount.count Nat.blt (sourceEntries feeds)
    have hsortnames : ((sortJS NameCount.count Nat.blt (sourceEntries feeds)).map
        NameCount.name).Nodup :=
      ((hperm.map NameCount.name).nodup_iff).mpr hentriesnd
    have hsorted : (sortJS NameCount.count Nat.blt (sourceEntries feeds)).Pairwise
        (fun a b => Nat.blt a.count b.count = false) :=
      @sortJS_pairwise _ _ NameCount.count Nat.blt
        (fun a b c h1 h2 => natBlt_trans h1 h2)
        (fun a b h => natBlt_asymm h) (sourceEntries feeds)
    refine ⟨?_, ?_, ?_, ?_, ?_, ?_⟩
    · rw [groupBySource_eq]
      exact List.length_take_le 8 _
    · rw [groupBySource_eq]
      refine (hsorted.sublist (List.take_sublist 8 _)).imp ?_
      intro a b hab
      refine le_of_not_lt (fun hlt => ?_)
      rw [(natBlt_iff _ _).mpr hlt] at hab
      exact Bool.noConfusion hab
    · rw [groupBySource_eq]
      exact (List.Sublist.map NameCount.name (List.take_sublist 8 _)).nodup hsortnames
    · rw [groupBySource_eq]
      intro e he
      have hes : e ∈ sortJS NameCount.count Nat.blt (sourceEntries feeds) :=
        (List.take_sublist 8 _).mem he
      have hee : e ∈ sourceEntries feeds := hperm.mem_iff.mp hes
      obtain ⟨p, hp, hpe⟩ := List.mem_map.mp hee
      have hp' : p ∈ foldBump (fun i => some (sourceKey i)) [] feeds := by
        rw [← buildMap_eq_foldBump]
        exact hp
      obtain ⟨hcnt, hpos, hex⟩ := mem_foldBump_count hp'
      subst hpe
      refine ⟨?_, hpos, ?_⟩
      · show p.2 = _
        rw [hcnt]
        apply List.countP_congr
        intro i _
        simp
      · obtain ⟨i, hi, hk⟩ := hex
        exact ⟨i, hi, Option.some.inj hk⟩
    · intro hlen i hi
      rw [groupBySource_eq]
      have hslen : (sortJS NameCount.count Nat.blt (sourceEntries feeds)).length ≤ 8 := by
        rw [sortJS_length]
        exact hlen
      rw [List.take_of_length_le hslen]
      have hkey : sourceKey i ∈ (buildMap sourceKey feeds).map Prod.fst := by
        rw [buildMap_eq_foldBump]
        exact (foldBump_mem_keys _ _ [] feeds).mpr (Or.inr ⟨i, hi, rfl⟩)
      rw [← hnames] at hkey
      exact ((hperm.map NameCount.name).mem_iff).mpr hkey
    · intro n
      exact @sortJS_filter_key _ _ _ NameCount.count Nat.blt
        (fun a b c h1 h2 => natBlt_trans h1 h2)
        (fun a b h => natBlt_asymm h) natBlt_irrefl n (sourceEntries feeds)
  · decide

/-- Witness for C4 (amended) on the spec scenario input. -/
theorem groupBySource_amended_witness :
    (groupBySource [{ source := some "ThreatPost" }, { source := some "threatpost" },
      { source := some "CSO" }]).length ≤ 8 ∧
    (NameCount.mk "threatpost" 2).count =
      ([{ source := some "ThreatPost" }, { source := some "threatpost" },
        { source := some "CSO" }] : List FeedItem).countP
        (fun i => decide (sourceKey i = (NameCount.mk "threatpost" 2).name)) ∧
    sourceKey ({ source := some "ThreatPost" } : FeedItem)
      ∈ (groupBySource [{ source := some "ThreatPost" }, { source := some "threatpost" },
          { source := some "CSO" }]).map NameCount.name := by
  have h := groupBySource_amended.1
    [{ source := some "ThreatPost" }, { source := some "threatpost" }, { source := some "CSO" }]
  refine ⟨h.1, ?_, ?_⟩
  · exact ((h.2.2.2.1 (NameCount.mk "threatpost" 2) (by decide)).1)
  · exact h.2.2.2.2.1 (by decide) { source := some "ThreatPost" } (by decide)

/-! ## Claim C6 -/

theorem groupByDateAux_ok_eq (env : JsDateEnv) :
    ∀ (feeds : List FeedItem) (m0 m : CountMap),
      groupByDateAux env m0 feeds = Except.ok m →
      m = foldBump (fun i => (dateKey env i).toOption) m0 feeds := by
  intro feeds
  induction feeds with
  | nil =>
    intro m0 m h
    simp only [groupByDateAux] at h
    cases h
    rfl
  | cons i rest ih =>
    intro m0 m h
    cases hd : dateKey env i with
    | error e =>
      rw [show groupByDateAux env m0 (i :: rest) = Except.error e from by
        simp [groupByDateAux, hd]] at h
      exact Except.noConfusion h
    | ok key =>
      rw [show groupByDateAux env m0 (i :: rest) = groupByDateAux env (bump key m0) rest from by
        simp [groupByDateAux, hd]] at h
      rw [ih (bump key m0) m h]
      have hstep : foldBump (fun i => (dateKey env i).toOption) m0 (i :: rest)
          = foldBump (fun i => (dateKey env i).toOption) (bump key m0) rest := by
        simp [foldBump, hd, Except.toOption]
      rw [hstep]

theorem except_toOption_eq_some (e : Except Unit String) (d : String) :
    e.toOption = some d ↔ e = Except.ok d := by
  cases e <;> simp [Except.toOption]

instance : DecidableEq (Except Unit String) := fun a b =>
  match a, b with
  | .ok x, .ok y =>
    if h : x = y then isTrue (by rw [h]) else
      isFalse (fun hh => h (Except.ok.inj hh))
  | .error x, .error y => isTrue (by cases x; cases y; rfl)
  | .ok _, .error _ => isFalse (fun hh => Except.noConfusion hh)
  | .error _, .ok _ => isFalse (fun hh => Except.noConfusion hh)

/-- C6: whenever `groupByDate` returns (it can also throw — claim C2), the
bucket list has at most 10 entries, the date strings are strictly descending
in the JS string order (hence pairwise distinct), every bucket belongs to a
day that actually occurs in the input with its exact item count (hence > 0 —
zero-item days produce no bucket), every occurring day that is not among the
buckets is strictly older than every kept bucket, and a day can only be
dropped when all 10 buckets are present — so with at most 10 occurring days
every one is kept, and otherwise exactly the 10 most recent occurring days
are. -/
theorem groupByDate_buckets (env : JsDateEnv) (feeds : List FeedItem)
    (bs : List DateBucket) (h : groupByDate env feeds = Except.ok bs) :
    bs.length ≤ 10 ∧
    bs.Pairwise (fun a b => strLtb b.date a.date = true) ∧
    (∀ b ∈ bs,
      b.count = feeds.countP (fun i => decide (dateKey env i = Except.ok b.date)) ∧
      0 < b.count ∧ ∃ i ∈ feeds, dateKey env i = Except.ok b.date) ∧
    (∀ i ∈ feeds, ∀ d, dateKey env i = Except.ok d → d ∉ bs.map DateBucket.date →
      ∀ b ∈ bs, strLtb d b.date = true) ∧
    (∀ i ∈ feeds, ∀ d, dateKey env i = Except.ok d → d ∉ bs.map DateBucket.date →
      bs.length = 10) := by
  unfold groupByDate at h
  cases haux : groupByDateAux env [] feeds with
  | error e =>
    rw [haux] at h
    simp [Except.map] at h
  | ok m =>
    rw [haux] at h
    simp only [Except.map] at h
    have hbs := (Except.ok.inj h).symm
    have hm : m = foldBump (fun i => (dateKey env i).toOption) [] feeds :=
      groupByDateAux_ok_eq env feeds [] m haux
    subst hm
    subst hbs
    have hkeysnd : ((foldBump (fun i => (dateKey env i).toOption) [] feeds).map
        Prod.fst).Nodup :=
      foldBump_keys_nodup _ feeds (by simp)
    have hcomp : (DateBucket.date ∘ fun p : String × Nat => DateBucket.mk p.1 p.2)
        = Prod.fst := funext (fun p => rfl)
    have hdatesnd : (((foldBump (fun i => (dateKey env i).toOption) [] feeds).map
        (fun p => DateBucket.mk p.1 p.2)).map DateBucket.date).Nodup := by
      rw [List.map_map, hcomp]
      exact hkeysnd
    have hperm := sortJS_perm DateBucket.date strLtb
      ((foldBump (fun i => (dateKey env i).toOption) [] feeds).map
        (fun p => DateBucket.mk p.1 p.2))
    have hsortdatesnd := (hperm.map DateBucket.date).nodup_iff.mpr hdatesnd
    have hsorted : (sortJS DateBucket.date strLtb
        ((foldBump (fun i => (dateKey env i).toOption) [] feeds).map
          (fun p => DateBucket.mk p.1 p.2))).Pairwise
        (fun a b => strLtb a.date b.date = false) :=
      @sortJS_pairwise _ _ DateBucket.date strLtb
        (fun a b c h1 h2 => strLtb_trans h1 h2) (fun a b h1 => strLtb_asymm h1) _
    have hstrict : (sortJS DateBucket.date strLtb
        ((foldBump (fun i => (dateKey env i).toOption) [] feeds).map
          (fun p => DateBucket.mk p.1 p.2))).Pairwise
        (fun a b => strLtb b.date a.date = true) :=
      pairwise_strict_of_desc (fun a b hne => strLtb_total a b hne) hsortdatesnd hsorted
    have hdropped : ∀ d, (∃ i ∈ feeds, dateKey env i = Except.ok d) →
        d ∉ ((sortJS DateBucket.date strLtb
          ((foldBump (fun i => (dateKey env i).toOption) [] feeds).map
            (fun p => DateBucket.mk p.1 p.2))).take 10).map DateBucket.date →
        ∃ c, DateBucket.mk d c ∈ (sortJS DateBucket.date strLtb
          ((foldBump (fun i => (dateKey env i).toOption) [] feeds).map
            (fun p => DateBucket.mk p.1 p.2))).drop 10 := by
      intro d hex hnotin
      obtain ⟨i, hi, hd⟩ := hex
      obtain ⟨c, hc⟩ := @foldBump_key_entry _ (fun i => (dateKey env i).toOption) feeds d
        ⟨i, hi, (except_toOption_eq_some (dateKey env i) d).mpr hd⟩
      have hmem : DateBucket.mk d c ∈
          (foldBump (fun i => (dateKey env i).toOption) [] feeds).map
            (fun p => DateBucket.mk p.1 p.2) := by
        have := List.mem_map_of_mem (fun p : String × Nat => DateBucket.mk p.1 p.2) hc
        simpa using this
      have hmems := hperm.mem_iff.mpr hmem
      rw [(List.take_append_drop 10 (sortJS DateBucket.date strLtb
        ((foldBump (fun i => (dateKey env i).toOption) [] feeds).map
          (fun p => DateBucket.mk p.1 p.2)))).symm] at hmems
      rcases List.mem_append.mp hmems with hin | hdrop
      · exact absurd (by simpa using List.mem_map_of_mem DateBucket.date hin) hnotin
      · exact ⟨c, hdrop⟩
    refine ⟨List.length_take_le 10 _, hstrict.sublist (List.take_sublist 10 _), ?_, ?_, ?_⟩
    · intro b hb
      have hbsort : b ∈ sortJS DateBucket.date strLtb
          ((foldBump (fun i => (dateKey env i).toOption) [] feeds).map
            (fun p => DateBucket.mk p.1 p.2)) := (List.take_sublist 10 _).mem hb
      have hbe := hperm.mem_iff.mp hbsort
      obtain ⟨p, hp, hpe⟩ := List.mem_map.mp hbe
      obtain ⟨hcnt, hpos, hex⟩ := mem_foldBump_count hp
      subst hpe
      refine ⟨?_, hpos, ?_⟩
      · show p.2 = _
        rw [hcnt]
        apply List.countP_congr
        intro i _
        simp only [decide_eq_true_eq]
        exact except_toOption_eq_some (dateKey env i) p.1
      · obtain ⟨i, hi, hk⟩ := hex
        exact ⟨i, hi, (except_toOption_eq_some (dateKey env i) p.1).mp hk⟩
    · intro i hi d hd hnotin b hb
      obtain ⟨c, hdrop⟩ := hdropped d ⟨i, hi, hd⟩ hnotin
      have hpw := hstrict
      rw [(List.take_append_drop 10 (sortJS DateBucket.date strLtb
        ((foldBump (fun i => (dateKey env i).toOption) [] feeds).map
          (fun p => DateBucket.mk p.1 p.2)))).symm] at hpw
      obtain ⟨-, -, hcross⟩ := List.pairwise_append.mp hpw
      exact hcross b hb (DateBucket.mk d c) hdrop
    · intro i hi d hd hnotin
      obtain ⟨c, hdrop⟩ := hdropped d ⟨i, hi, hd⟩ hnotin
      have hpos : 0 < ((sortJS DateBucket.date strLtb
          ((foldBump (fun i => (dateKey env i).toOption) [] feeds).map
            (fun p => DateBucket.mk p.1 p.2))).drop 10).length :=
        List.length_pos.mpr (List.ne_nil_of_mem hdrop)
      rw [List.length_drop] at hpos
      rw [List.length_take]
      omega

/-- Witness for C6 on a two-day input whose dates all parse. -/
theorem groupByDate_buckets_witness :
    [DateBucket.mk "2024-01-02" 2, DateBucket.mk "2024-01-01" 1].length ≤ 10 ∧
    [DateBucket.mk "2024-01-02" 2, DateBucket.mk "2024-01-01" 1].Pairwise
      (fun a b => strLtb b.date a.date = true) := by
  have h := groupByDate_buckets
    (JsDateEnv.mk (fun s => if s = "a" then some 1 else if s = "b" then some 2 else none)
      (fun t => if t = 1 then "2024-01-01" else "2024-01-02") 0)
    [{ published_at := some "b" }, { published_at := some "a" },
     { published_at := some "b" }]
    [DateBucket.mk "2024-01-02" 2, DateBucket.mk "2024-01-01" 1] rfl
  exact ⟨h.1, h.2.1⟩

end AiCti
